import Mathlib

/-!
Verification of the metric calculators of `madewithml/evaluate.py`
(overall, per-class and slice metrics for a text classifier).

Label arrays are lists of naturals, metric values are rationals.
The sklearn routine `precision_recall_fscore_support` is modelled by
`prfLabels` / weighted / micro aggregation below, following its
documented semantics: the label set is the sorted union of the labels
occurring in `y_true` and `y_pred`, a zero denominator yields 0
(`zero_division` default), `average="weighted"` averages with the
per-label supports as weights, guarded by an early `(0, 0, 0)` return
when the weights sum to zero (i.e. on empty input), and
`average="micro"` pools the per-label TP/FP/FN counts before computing
a single metric.
Python `dict`s are modelled as insertion-ordered association lists and
raised exceptions as `none`.  Python `sorted` (timsort) is a stable sort;
a stable sort's output is uniquely determined by the key order and the
input order, so it is modelled by the stable `List.insertionSort` with
the reversed (descending-f1) comparison.
-/

namespace MLOps

/-- One metric record: precision/recall/f1 plus the sample count
(`np.float64` in the Python code, hence a rational here as well). -/
structure MetricRecord where
  precision : ℚ
  «recall» : ℚ
  f1 : ℚ
  num_samples : ℚ
deriving Repr, DecidableEq

/-- True positives of label `l`: positions where truth and prediction both equal `l`. -/
def tpCount (y_true y_pred : List ℕ) (l : ℕ) : ℕ :=
  ((y_true.zip y_pred).filter fun p => p.1 == l && p.2 == l).length

/-- Support of label `l`: number of ground-truth occurrences. -/
def supportCount (y_true : List ℕ) (l : ℕ) : ℕ :=
  y_true.count l

/-- Number of predictions of label `l` (true positives plus false positives). -/
def predCount (y_pred : List ℕ) (l : ℕ) : ℕ :=
  y_pred.count l

/-- The label set used by `precision_recall_fscore_support` when no explicit
`labels` argument is given: sorted distinct labels present in either array. -/
def labelsOf (y_true y_pred : List ℕ) : List ℕ :=
  ((y_true ++ y_pred).dedup).insertionSort (fun a b => a ≤ b)

/-- Per-label precision `TP / (TP + FP)`; rational division returns 0 on a
zero denominator, matching the sklearn zero-division convention. -/
def precisionOf (y_true y_pred : List ℕ) (l : ℕ) : ℚ :=
  (tpCount y_true y_pred l : ℚ) / (predCount y_pred l : ℚ)

/-- Per-label recall `TP / (TP + FN)`. -/
def recallOf (y_true y_pred : List ℕ) (l : ℕ) : ℚ :=
  (tpCount y_true y_pred l : ℚ) / (supportCount y_true l : ℚ)

/-- Per-label F1 `2·p·r / (p + r)`, 0 when both are 0 (division by zero is 0). -/
def f1Of (y_true y_pred : List ℕ) (l : ℕ) : ℚ :=
  2 * precisionOf y_true y_pred l * recallOf y_true y_pred l /
    (precisionOf y_true y_pred l + recallOf y_true y_pred l)

/-- The four arrays returned by `precision_recall_fscore_support(..., average=None)`,
one entry per label of `labelsOf`, zipped into records
(`num_samples` holds the support column). -/
def prfLabels (y_true y_pred : List ℕ) : List MetricRecord :=
  (labelsOf y_true y_pred).map fun l =>
    ⟨precisionOf y_true y_pred l, recallOf y_true y_pred l,
      f1Of y_true y_pred l, (supportCount y_true l : ℚ)⟩

/-- `np.average(xs, weights=supports)` over the label set: support-weighted mean. -/
def weightedAvg (y_true y_pred : List ℕ) (m : ℕ → ℚ) : ℚ :=
  (((labelsOf y_true y_pred).map fun l => (supportCount y_true l : ℚ) * m l).sum) /
    (((labelsOf y_true y_pred).map fun l => (supportCount y_true l : ℚ)).sum)

/-- `get_overall_metrics(y_true, y_pred)`: weighted-average precision/recall/f1
with `num_samples = len(y_true)`.  Returns `none` only when sklearn raises,
i.e. on a length mismatch (`check_consistent_length`).  On empty
equal-length input nothing raises: the supports sum to zero, sklearn's
weighted branch hits its `if weights.sum() == 0` guard and returns a zero
tuple, so the code builds the all-zero record (`num_samples` is
`np.float64(0)`). -/
def get_overall_metrics (y_true y_pred : List ℕ) : Option MetricRecord :=
  if y_true.length = y_pred.length then
    if y_true.length = 0 then some ⟨0, 0, 0, 0⟩
    else
      some ⟨weightedAvg y_true y_pred (precisionOf y_true y_pred),
            weightedAvg y_true y_pred (recallOf y_true y_pred),
            weightedAvg y_true y_pred (f1Of y_true y_pred),
            (y_true.length : ℚ)⟩
  else none

/-- Comparison used by `sorted(per_class_metrics.items(), key=lambda tag: tag[1]["f1"],
reverse=True)`: a stable sort by f1 descending. -/
def F1Desc (a b : String × MetricRecord) : Prop :=
  b.2.f1 ≤ a.2.f1

instance : DecidableRel F1Desc :=
  fun a b => Rat.instDecidableLe b.2.f1 a.2.f1

instance : IsTotal (String × MetricRecord) F1Desc :=
  ⟨fun a b => le_total b.2.f1 a.2.f1⟩

instance : IsTrans (String × MetricRecord) F1Desc :=
  ⟨fun _ _ _ h1 h2 => le_trans h2 h1⟩

/-- The `for i, _class in enumerate(class_to_index)` loop: the `i`-th key is
paired with `metrics[·][i]`; indexing past the end of the metric arrays is an
`IndexError`, i.e. `none`. -/
def pairClasses : List String → List MetricRecord → Option (List (String × MetricRecord))
  | [], _ => some []
  | _ :: _, [] => none
  | c :: cs, m :: ms => (pairClasses cs ms).map fun r => (c, m) :: r

/-- `get_per_class_metrics(y_true, y_pred, class_to_index)`: pairs the `i`-th
key of `class_to_index` (insertion order; the mapped index values are never
read) with the `i`-th entry of the `average=None` arrays, then stable-sorts
by f1 descending.  `none` models a raised exception: a length mismatch, or
an `IndexError` when `class_to_index` has more keys than there are labels
present in the data. -/
def get_per_class_metrics (y_true y_pred : List ℕ)
    (class_to_index : List (String × ℕ)) : Option (List (String × MetricRecord)) :=
  if y_true.length = y_pred.length then
    (pairClasses (class_to_index.map Prod.fst) (prfLabels y_true y_pred)).map
      fun l => l.insertionSort F1Desc
  else none

/-- One evaluation example as seen by the slicing functions: its `text` and `tag`. -/
structure Example where
  text : String
  tag : String

/-- Python substring test `needle in hay`. -/
def strIn (needle hay : String) : Bool :=
  decide (needle.data <:+: hay.data)

/-- Python `str.lower()` on the character sequence (`Char.toLower` per
character, as in the ASCII texts the slices target). -/
def lowerChars (s : String) : List Char :=
  s.data.map Char.toLower

/-- Cut a character sequence at every whitespace character (the pieces
between cuts, in order; empty pieces arise between adjacent separators). -/
def splitEvery (acc : List Char) : List Char → List (List Char)
  | [] => [acc.reverse]
  | c :: cs =>
    if c.isWhitespace then acc.reverse :: splitEvery [] cs
    else splitEvery (c :: acc) cs

/-- Python `str.split()` with no separator: split on whitespace, dropping
empty fragments. -/
def pySplit (s : String) : List (List Char) :=
  (splitEvery [] s.data).filter fun w => w ≠ []

/-- Slicing function `nlp_llm`: tag contains "natural-language-processing"
and the lowercased text contains one of the lowercased LLM terms. -/
def nlp_llm (x : Example) : Bool :=
  (strIn "natural-language-processing" x.tag) &&
    (["transformer", "llm", "bert"].any fun s =>
      decide (lowerChars s <:+: lowerChars x.text))

/-- Slicing function `short_text`: text splits into fewer than 8 words. -/
def short_text (x : Example) : Bool :=
  decide ((pySplit x.text).length < 8)

/-- The fixed `slicing_functions` list of `get_slice_metrics`. -/
def slicing_functions : List (String × (Example → Bool)) :=
  [("nlp_llm", nlp_llm), ("short_text", short_text)]

/-- NumPy boolean-mask indexing `xs[mask]`. -/
def maskFilter {α : Type} (xs : List α) (mask : List Bool) : List α :=
  ((xs.zip mask).filter fun p => p.2).map Prod.fst

/-- `precision_recall_fscore_support(..., average="micro")` packaged as a
record, with `num_samples = len(y_true)` as the slice code sets it:
TP/FP/FN are pooled (summed) across the label set before a single
precision/recall/f1 is computed. -/
def microRecord (y_true y_pred : List ℕ) : MetricRecord :=
  let tps : ℚ := ((labelsOf y_true y_pred).map fun l => (tpCount y_true y_pred l : ℚ)).sum
  let fps : ℚ := ((labelsOf y_true y_pred).map fun l =>
    ((predCount y_pred l - tpCount y_true y_pred l : ℕ) : ℚ)).sum
  let fns : ℚ := ((labelsOf y_true y_pred).map fun l =>
    ((supportCount y_true l - tpCount y_true y_pred l : ℕ) : ℚ)).sum
  let p := tps / (tps + fps)
  let r := tps / (tps + fns)
  ⟨p, r, 2 * p * r / (p + r), (y_true.length : ℚ)⟩

/-- Number of positions where truth and prediction agree (the pooled
true-positive count of micro averaging). -/
def agreeCount (y_true y_pred : List ℕ) : ℕ :=
  ((y_true.zip y_pred).filter fun p => p.1 == p.2).length

/-- The slice-metrics loop, generic in the predicate list (the snorkel
applier evaluates each slicing function row-wise into a boolean mask;
slices whose mask has no true entry are skipped by `if sum(mask)`). -/
def apply_slice_metrics (sfs : List (String × (Example → Bool)))
    (y_true y_pred : List ℕ) (examples : List Example) : List (String × MetricRecord) :=
  sfs.filterMap fun nf =>
    let mask := examples.map nf.2
    if mask.count true ≠ 0 then
      some (nf.1, microRecord (maskFilter y_true mask) (maskFilter y_pred mask))
    else none

/-- `get_slice_metrics(y_true, y_pred, ds, preprocessor)` with the dataset
already materialised into examples: applies the fixed slicing functions. -/
def get_slice_metrics (y_true y_pred : List ℕ) (examples : List Example) :
    List (String × MetricRecord) :=
  apply_slice_metrics slicing_functions y_true y_pred examples

/-! ### Theorems -/

/-- The enumerate loop succeeds exactly when there are at least as many
metric entries as class keys, and then pairs them positionally. -/
lemma pairClasses_eq_some_iff (keys : List String) (ms : List MetricRecord)
    (l : List (String × MetricRecord)) :
    pairClasses keys ms = some l ↔ keys.length ≤ ms.length ∧ l = keys.zip ms := by
  induction keys generalizing ms l with
  | nil => simp [pairClasses, eq_comm]
  | cons c cs ih =>
    cases ms with
    | nil => simp [pairClasses]
    | cons m mss =>
      simp only [pairClasses, List.zip_cons_cons, List.length_cons,
        Option.map_eq_some', Nat.add_le_add_iff_right]
      constructor
      · rintro ⟨r, hr, rfl⟩
        obtain ⟨h1, rfl⟩ := (ih mss r).mp hr
        exact ⟨h1, rfl⟩
      · rintro ⟨h1, rfl⟩
        exact ⟨cs.zip mss, (ih mss _).mpr ⟨h1, rfl⟩, rfl⟩

lemma countP_zip_fst_le (y_true y_pred : List ℕ) (q : ℕ × ℕ → Bool) (p : ℕ → Bool)
    (himp : ∀ x, q x = true → p x.1 = true) :
    (y_true.zip y_pred).countP q ≤ y_true.countP p := by
  induction y_true generalizing y_pred with
  | nil => simp
  | cons a l ih =>
    cases y_pred with
    | nil => simp [List.countP_cons, List.countP_nil]
    | cons b m =>
      simp only [List.zip_cons_cons, List.countP_cons]
      have h1 := ih m
      by_cases hq : q (a, b) = true
      · have hp := himp _ hq
        simp only [hq, hp, if_true]
        omega
      · simp only [hq, if_false]
        rcases Bool.eq_false_or_eq_true (p a) with h | h <;> simp [h] <;> omega

lemma countP_zip_snd_le (y_true y_pred : List ℕ) (q : ℕ × ℕ → Bool) (p : ℕ → Bool)
    (himp : ∀ x, q x = true → p x.2 = true) :
    (y_true.zip y_pred).countP q ≤ y_pred.countP p := by
  induction y_true generalizing y_pred with
  | nil => simp
  | cons a l ih =>
    cases y_pred with
    | nil => simp
    | cons b m =>
      simp only [List.zip_cons_cons, List.countP_cons]
      have h1 := ih m
      by_cases hq : q (a, b) = true
      · have hp := himp _ hq
        simp only [hq, hp, if_true]
        omega
      · simp only [hq, if_false]
        rcases Bool.eq_false_or_eq_true (p b) with h | h <;> simp [h] <;> omega

lemma tpCount_eq_countP (y_true y_pred : List ℕ) (l : ℕ) :
    tpCount y_true y_pred l = (y_true.zip y_pred).countP fun p => p.1 == l && p.2 == l := by
  rw [tpCount, List.countP_eq_length_filter]

/-- A label's true positives never exceed its ground-truth support. -/
lemma tp_le_support (y_true y_pred : List ℕ) (l : ℕ) :
    tpCount y_true y_pred l ≤ supportCount y_true l := by
  rw [tpCount_eq_countP, supportCount, List.count_eq_countP]
  exact countP_zip_fst_le _ _ _ _ fun x hx => (Bool.and_eq_true .. ▸ hx).1

/-- A label's true positives never exceed its prediction count. -/
lemma tp_le_pred (y_true y_pred : List ℕ) (l : ℕ) :
    tpCount y_true y_pred l ≤ predCount y_pred l := by
  rw [tpCount_eq_countP, predCount, List.count_eq_countP]
  exact countP_zip_snd_le _ _ _ _ fun x hx => (Bool.and_eq_true .. ▸ hx).2

/-- A label with zero ground-truth support gets the all-zero metric record. -/
lemma zero_support_record (y_true y_pred : List ℕ) (l : ℕ)
    (h : supportCount y_true l = 0) :
    precisionOf y_true y_pred l = 0 ∧ recallOf y_true y_pred l = 0 ∧
      f1Of y_true y_pred l = 0 := by
  have htp : tpCount y_true y_pred l = 0 :=
    Nat.le_zero.mp (h ▸ tp_le_support y_true y_pred l)
  have hp : precisionOf y_true y_pred l = 0 := by
    rw [precisionOf, htp]
    simp
  have hr : recallOf y_true y_pred l = 0 := by
    rw [recallOf, htp]
    simp
  refine ⟨hp, hr, ?_⟩
  rw [f1Of, hp, hr]
  simp

/-- Evaluation helper: the per-class output on the C6/C10 scenario data, for
any class mapping whose key sequence is `["a", "b"]`. -/
lemma per_class_concrete_eval (c : List (String × ℕ)) (h : c.map Prod.fst = ["a", "b"]) :
    get_per_class_metrics [0, 0, 1, 1] [0, 1, 1, 1] c =
      some [("b", ⟨2/3, 1, 4/5, 2⟩), ("a", ⟨1, 1/2, 2/3, 2⟩)] := by
  have h1 : labelsOf [0, 0, 1, 1] [0, 1, 1, 1] = [0, 1] := by decide
  have h2 : tpCount [0, 0, 1, 1] [0, 1, 1, 1] 0 = 1 := by decide
  have h3 : tpCount [0, 0, 1, 1] [0, 1, 1, 1] 1 = 2 := by decide
  norm_num [get_per_class_metrics, h, pairClasses, prfLabels, h1, h2, h3, precisionOf,
    recallOf, f1Of, supportCount, predCount, List.insertionSort, List.orderedInsert, F1Desc,
    MetricRecord.mk.injEq]

/-- Evaluation helper: the overall metrics on the C6 scenario data. -/
lemma overall_concrete_eval :
    get_overall_metrics [0, 0, 1, 1] [0, 1, 1, 1] = some ⟨5/6, 3/4, 11/15, 4⟩ := by
  have h1 : labelsOf [0, 0, 1, 1] [0, 1, 1, 1] = [0, 1] := by decide
  have h2 : tpCount [0, 0, 1, 1] [0, 1, 1, 1] 0 = 1 := by decide
  have h3 : tpCount [0, 0, 1, 1] [0, 1, 1, 1] 1 = 2 := by decide
  norm_num [get_overall_metrics, weightedAvg, h1, h2, h3, precisionOf, recallOf,
    f1Of, supportCount, predCount, MetricRecord.mk.injEq]

lemma labelsOf_nodup (y_true y_pred : List ℕ) : (labelsOf y_true y_pred).Nodup :=
  (List.perm_insertionSort _ _).symm.nodup ((y_true ++ y_pred).nodup_dedup)

lemma mem_labelsOf {x : ℕ} {y_true y_pred : List ℕ} (h : x ∈ y_true ∨ x ∈ y_pred) :
    x ∈ labelsOf y_true y_pred := by
  rw [labelsOf, List.mem_insertionSort, List.mem_dedup, List.mem_append]
  exact h

/-- Casting a sum of naturals into the rationals, mapped over a list. -/
lemma cast_sum_map (D : List ℕ) (f : ℕ → ℕ) :
    (D.map fun l => (f l : ℚ)).sum = ((D.map f).sum : ℚ) := by
  induction D with
  | nil => simp
  | cons a t ih => simp [ih]

/-- Sums of pointwise differences over a list of rationals. -/
lemma sum_map_sub (D : List ℕ) (f g : ℕ → ℚ) :
    (D.map fun l => f l - g l).sum = (D.map f).sum - (D.map g).sum := by
  induction D with
  | nil => simp
  | cons a t ih =>
    simp only [List.map_cons, List.sum_cons, ih]
    ring

/-- Occurrence counts over a duplicate-free list covering `xs` sum to the
length of `xs`. -/
lemma sum_count_of_nodup (D xs : List ℕ) (hD : D.Nodup) (hsub : ∀ x ∈ xs, x ∈ D) :
    (D.map fun l => xs.count l).sum = xs.length := by
  rw [← List.sum_toFinset _ hD]
  have h1 : xs.toFinset ⊆ D.toFinset := fun x hx =>
    List.mem_toFinset.mpr (hsub x (List.mem_toFinset.mp hx))
  rw [← Finset.sum_subset h1 fun x _ hnx =>
    List.count_eq_zero.mpr fun hmem => hnx (List.mem_toFinset.mpr hmem)]
  have hms := Multiset.toFinset_sum_count_eq (xs : Multiset ℕ)
  simpa using hms

/-- Pooling the per-label true positives over the label set counts exactly
the positions where truth and prediction agree. -/
lemma sum_tpCount (y_true y_pred : List ℕ) :
    ((labelsOf y_true y_pred).map fun l => tpCount y_true y_pred l).sum =
      agreeCount y_true y_pred := by
  have hw : ∀ l, tpCount y_true y_pred l =
      (((y_true.zip y_pred).filter fun p => p.1 == p.2).map Prod.fst).count l := by
    intro l
    rw [List.count_eq_countP, List.countP_map, tpCount_eq_countP, List.countP_filter]
    refine List.countP_congr fun x _ => ?_
    simp only [Function.comp_apply, Bool.and_eq_true, beq_iff_eq]
    omega
  simp only [hw]
  rw [sum_count_of_nodup _ _ (labelsOf_nodup y_true y_pred) ?_, agreeCount,
    List.length_map]
  intro x hx
  obtain ⟨p, hp, rfl⟩ := List.mem_map.mp hx
  exact mem_labelsOf (Or.inl (List.of_mem_zip (List.mem_filter.mp hp).1).1)

/-- Pooling the per-label prediction counts over the label set counts all
predictions. -/
lemma sum_predCount (y_true y_pred : List ℕ) :
    ((labelsOf y_true y_pred).map fun l => predCount y_pred l).sum = y_pred.length :=
  sum_count_of_nodup _ _ (labelsOf_nodup y_true y_pred) fun _ hx =>
    mem_labelsOf (Or.inr hx)

/-- Pooling the per-label supports over the label set counts all
ground-truth samples. -/
lemma sum_supportCount (y_true y_pred : List ℕ) :
    ((labelsOf y_true y_pred).map fun l => supportCount y_true l).sum = y_true.length :=
  sum_count_of_nodup _ _ (labelsOf_nodup y_true y_pred) fun _ hx =>
    mem_labelsOf (Or.inl hx)

/-- For equal-length arrays, the pooled micro record collapses to the
agreement ratio in all three metric fields. -/
lemma microRecord_eq (y_true y_pred : List ℕ) (hlen : y_true.length = y_pred.length) :
    microRecord y_true y_pred =
      ⟨(agreeCount y_true y_pred : ℚ) / (y_true.length : ℚ),
        (agreeCount y_true y_pred : ℚ) / (y_true.length : ℚ),
        (agreeCount y_true y_pred : ℚ) / (y_true.length : ℚ),
        (y_true.length : ℚ)⟩ := by
  have htps : ((labelsOf y_true y_pred).map fun l => (tpCount y_true y_pred l : ℚ)).sum =
      (agreeCount y_true y_pred : ℚ) := by
    rw [cast_sum_map, sum_tpCount]
  have hfps : ((labelsOf y_true y_pred).map fun l =>
      ((predCount y_pred l - tpCount y_true y_pred l : ℕ) : ℚ)).sum =
      (y_pred.length : ℚ) - (agreeCount y_true y_pred : ℚ) := by
    have he : ∀ l ∈ labelsOf y_true y_pred,
        ((predCount y_pred l - tpCount y_true y_pred l : ℕ) : ℚ) =
        (predCount y_pred l : ℚ) - (tpCount y_true y_pred l : ℚ) := fun l _ =>
      Nat.cast_sub (tp_le_pred y_true y_pred l)
    rw [List.map_congr_left he, sum_map_sub, cast_sum_map, cast_sum_map,
      sum_tpCount, sum_predCount]
  have hfns : ((labelsOf y_true y_pred).map fun l =>
      ((supportCount y_true l - tpCount y_true y_pred l : ℕ) : ℚ)).sum =
      (y_true.length : ℚ) - (agreeCount y_true y_pred : ℚ) := by
    have he : ∀ l ∈ labelsOf y_true y_pred,
        ((supportCount y_true l - tpCount y_true y_pred l : ℕ) : ℚ) =
        (supportCount y_true l : ℚ) - (tpCount y_true y_pred l : ℚ) := fun l _ =>
      Nat.cast_sub (tp_le_support y_true y_pred l)
    rw [List.map_congr_left he, sum_map_sub, cast_sum_map, cast_sum_map,
      sum_tpCount, sum_supportCount]
  rw [microRecord, htps, hfps, hfns, ← hlen]
  have hd : (agreeCount y_true y_pred : ℚ) +
      ((y_true.length : ℚ) - (agreeCount y_true y_pred : ℚ)) = (y_true.length : ℚ) := by
    ring
  rw [hd]
  set q := (agreeCount y_true y_pred : ℚ) / (y_true.length : ℚ) with hq
  have hf1 : 2 * q * q / (q + q) = q := by
    by_cases h0 : q = 0
    · simp [h0]
    · have h2 : q + q = 2 * q := by ring
      rw [h2, div_eq_iff (by positivity)]
      ring
  simp [hf1]

lemma maskFilter_nil {α : Type} (mask : List Bool) : maskFilter ([] : List α) mask = [] := by
  simp [maskFilter]

lemma maskFilter_cons {α : Type} (a : α) (xs : List α) (b : Bool) (mask : List Bool) :
    maskFilter (a :: xs) (b :: mask) =
      if b then a :: maskFilter xs mask else maskFilter xs mask := by
  cases b <;> simp [maskFilter]

/-- The masked subset has as many entries as the mask has true bits. -/
lemma length_maskFilter {α : Type} (xs : List α) (mask : List Bool)
    (h : xs.length = mask.length) :
    (maskFilter xs mask).length = mask.count true := by
  induction xs generalizing mask with
  | nil =>
    cases mask with
    | nil => simp [maskFilter]
    | cons b m => simp at h
  | cons a l ih =>
    cases mask with
    | nil => simp at h
    | cons b m =>
      have h1 : l.length = m.length := by simpa using h
      rw [maskFilter_cons]
      cases b
      · simpa [List.count_cons] using ih m h1
      · simpa [List.count_cons] using ih m h1

/-- Division of a nonnegative numerator by a dominating denominator lands
in the unit interval (including the 0/0 = 0 convention). -/
lemma unit_div (a b : ℚ) (h0 : 0 ≤ a) (hab : a ≤ b) : 0 ≤ a / b ∧ a / b ≤ 1 := by
  rcases eq_or_lt_of_le (le_trans h0 hab) with hb | hb
  · rw [← hb, div_zero]
    exact ⟨le_refl 0, zero_le_one⟩
  · exact ⟨div_nonneg h0 hb.le, (div_le_one hb).mpr hab⟩

lemma precision01 (y_true y_pred : List ℕ) (l : ℕ) :
    0 ≤ precisionOf y_true y_pred l ∧ precisionOf y_true y_pred l ≤ 1 :=
  unit_div _ _ (Nat.cast_nonneg _) (Nat.cast_le.mpr (tp_le_pred y_true y_pred l))

lemma recall01 (y_true y_pred : List ℕ) (l : ℕ) :
    0 ≤ recallOf y_true y_pred l ∧ recallOf y_true y_pred l ≤ 1 :=
  unit_div _ _ (Nat.cast_nonneg _) (Nat.cast_le.mpr (tp_le_support y_true y_pred l))

lemma f101 (y_true y_pred : List ℕ) (l : ℕ) :
    0 ≤ f1Of y_true y_pred l ∧ f1Of y_true y_pred l ≤ 1 := by
  obtain ⟨hp0, hp1⟩ := precision01 y_true y_pred l
  obtain ⟨hr0, hr1⟩ := recall01 y_true y_pred l
  refine unit_div _ _ (by positivity) ?_
  nlinarith [mul_nonneg (sub_nonneg.mpr hp1) hr0, mul_nonneg (sub_nonneg.mpr hr1) hp0]

/-- A support-weighted average of values in the unit interval stays in the
unit interval. -/
lemma weightedAvg01 (y_true y_pred : List ℕ) (m : ℕ → ℚ)
    (hm : ∀ l, 0 ≤ m l ∧ m l ≤ 1) :
    0 ≤ weightedAvg y_true y_pred m ∧ weightedAvg y_true y_pred m ≤ 1 := by
  refine unit_div _ _ ?_ ?_
  · refine List.sum_nonneg fun x hx => ?_
    obtain ⟨l, _, rfl⟩ := List.mem_map.mp hx
    exact mul_nonneg (Nat.cast_nonneg _) (hm l).1
  · refine List.sum_le_sum fun l _ => ?_
    exact mul_le_of_le_one_right (Nat.cast_nonneg _) (hm l).2

/-- In a pair list with duplicate-free keys, a key determines its value. -/
lemma eq_of_mem_nodup_fst {α β : Type} {l : List (α × β)} (hnd : (l.map Prod.fst).Nodup)
    {a : α} {b c : β} (hb : (a, b) ∈ l) (hc : (a, c) ∈ l) : b = c := by
  induction l with
  | nil => simp at hb
  | cons p t ih =>
    simp only [List.map_cons, List.nodup_cons] at hnd
    rcases List.mem_cons.mp hb with hb1 | hb1 <;> rcases List.mem_cons.mp hc with hc1 | hc1
    · exact congrArg Prod.snd (hb1.trans hc1.symm)
    · obtain rfl := hb1.symm
      exact absurd (List.mem_map.mpr ⟨(a, c), hc1, rfl⟩) hnd.1
    · obtain rfl := hc1.symm
      exact absurd (List.mem_map.mpr ⟨(a, b), hb1, rfl⟩) hnd.1
    · exact ih hnd.2 hb1 hc1

/-- C9: on equal-length, non-empty arrays the overall calculator succeeds and
returns precision, recall and f1 in the unit interval, with
`num_samples = len(y_true)`. -/
theorem overall_metrics_bounds (y_true y_pred : List ℕ)
    (hlen : y_true.length = y_pred.length) (hne : y_true.length ≠ 0) :
    ∃ r, get_overall_metrics y_true y_pred = some r ∧
      0 ≤ r.precision ∧ r.precision ≤ 1 ∧ 0 ≤ r.«recall» ∧ r.«recall» ≤ 1 ∧
      0 ≤ r.f1 ∧ r.f1 ≤ 1 ∧ r.num_samples = (y_true.length : ℚ) := by
  obtain ⟨hp0, hp1⟩ := weightedAvg01 y_true y_pred _ (precision01 y_true y_pred)
  obtain ⟨hr0, hr1⟩ := weightedAvg01 y_true y_pred _ (recall01 y_true y_pred)
  obtain ⟨hf0, hf1⟩ := weightedAvg01 y_true y_pred _ (f101 y_true y_pred)
  exact ⟨⟨weightedAvg y_true y_pred (precisionOf y_true y_pred),
      weightedAvg y_true y_pred (recallOf y_true y_pred),
      weightedAvg y_true y_pred (f1Of y_true y_pred), (y_true.length : ℚ)⟩,
    by rw [get_overall_metrics, if_pos hlen, if_neg hne], hp0, hp1, hr0, hr1, hf0, hf1, rfl⟩

theorem overall_metrics_bounds_witness :
    ∃ r, get_overall_metrics [0, 0, 1, 1] [0, 1, 1, 1] = some r ∧
      0 ≤ r.precision ∧ r.precision ≤ 1 ∧ 0 ≤ r.«recall» ∧ r.«recall» ≤ 1 ∧
      0 ≤ r.f1 ∧ r.f1 ≤ 1 ∧ r.num_samples = (([0, 0, 1, 1] : List ℕ).length : ℚ) :=
  overall_metrics_bounds [0, 0, 1, 1] [0, 1, 1, 1] (by decide) (by decide)

/-- C4: for any slicing function of the list whose mask selects at least one
example, the output contains the micro-averaged record over the masked
subset (TP/FP/FN pooled across labels before a single metric is computed:
precision, recall and f1 all equal the pooled agreement ratio), and its
`num_samples` is the number of true mask entries (a natural number). -/
theorem slice_micro_averaging (sfs : List (String × (Example → Bool)))
    (y_true y_pred : List ℕ) (examples : List Example)
    (hty : y_true.length = examples.length) (hpy : y_pred.length = examples.length)
    (nm : String) (f : Example → Bool) (hmem : (nm, f) ∈ sfs)
    (hcnt : (examples.map f).count true ≠ 0) :
    (nm, microRecord (maskFilter y_true (examples.map f))
        (maskFilter y_pred (examples.map f))) ∈
      apply_slice_metrics sfs y_true y_pred examples ∧
    (microRecord (maskFilter y_true (examples.map f))
        (maskFilter y_pred (examples.map f))).num_samples =
      (((examples.map f).count true : ℕ) : ℚ) ∧
    (microRecord (maskFilter y_true (examples.map f))
        (maskFilter y_pred (examples.map f))).precision =
      (agreeCount (maskFilter y_true (examples.map f)) (maskFilter y_pred (examples.map f)) : ℚ) /
        ((examples.map f).count true : ℚ) ∧
    (microRecord (maskFilter y_true (examples.map f))
        (maskFilter y_pred (examples.map f))).«recall» =
      (agreeCount (maskFilter y_true (examples.map f)) (maskFilter y_pred (examples.map f)) : ℚ) /
        ((examples.map f).count true : ℚ) ∧
    (microRecord (maskFilter y_true (examples.map f))
        (maskFilter y_pred (examples.map f))).f1 =
      (agreeCount (maskFilter y_true (examples.map f)) (maskFilter y_pred (examples.map f)) : ℚ) /
        ((examples.map f).count true : ℚ) := by
  have hm1 : y_true.length = (examples.map f).length := by simpa using hty
  have hm2 : y_pred.length = (examples.map f).length := by simpa using hpy
  have hl1 : (maskFilter y_true (examples.map f)).length = (examples.map f).count true :=
    length_maskFilter _ _ hm1
  have hl2 : (maskFilter y_pred (examples.map f)).length = (examples.map f).count true :=
    length_maskFilter _ _ hm2
  have hl : (maskFilter y_true (examples.map f)).length =
      (maskFilter y_pred (examples.map f)).length := by rw [hl1, hl2]
  refine ⟨List.mem_filterMap.mpr ⟨(nm, f), hmem, ?_⟩, ?_, ?_, ?_, ?_⟩
  · show (if (examples.map f).count true ≠ 0 then _ else none) = _
    rw [if_pos hcnt]
  · simp [microRecord_eq _ _ hl, hl1]
  · simp [microRecord_eq _ _ hl, hl1]
  · simp [microRecord_eq _ _ hl, hl1]
  · simp [microRecord_eq _ _ hl, hl1]

theorem slice_micro_averaging_witness :
    ("short_text", microRecord
        (maskFilter [0, 1] ((([⟨"a b c", "t"⟩, ⟨"a b c d e f g h i", "t"⟩] :
          List Example)).map short_text))
        (maskFilter [0, 1] ((([⟨"a b c", "t"⟩, ⟨"a b c d e f g h i", "t"⟩] :
          List Example)).map short_text))) ∈
      apply_slice_metrics slicing_functions [0, 1] [0, 1]
        [⟨"a b c", "t"⟩, ⟨"a b c d e f g h i", "t"⟩] ∧
    (microRecord
        (maskFilter [0, 1] ((([⟨"a b c", "t"⟩, ⟨"a b c d e f g h i", "t"⟩] :
          List Example)).map short_text))
        (maskFilter [0, 1] ((([⟨"a b c", "t"⟩, ⟨"a b c d e f g h i", "t"⟩] :
          List Example)).map short_text))).num_samples =
      (((([⟨"a b c", "t"⟩, ⟨"a b c d e f g h i", "t"⟩] :
          List Example).map short_text).count true : ℕ) : ℚ) ∧
    (microRecord
        (maskFilter [0, 1] ((([⟨"a b c", "t"⟩, ⟨"a b c d e f g h i", "t"⟩] :
          List Example)).map short_text))
        (maskFilter [0, 1] ((([⟨"a b c", "t"⟩, ⟨"a b c d e f g h i", "t"⟩] :
          List Example)).map short_text))).precision =
      (agreeCount
          (maskFilter [0, 1] ((([⟨"a b c", "t"⟩, ⟨"a b c d e f g h i", "t"⟩] :
            List Example)).map short_text))
          (maskFilter [0, 1] ((([⟨"a b c", "t"⟩, ⟨"a b c d e f g h i", "t"⟩] :
            List Example)).map short_text)) : ℚ) /
        ((([⟨"a b c", "t"⟩, ⟨"a b c d e f g h i", "t"⟩] :
          List Example).map short_text).count true : ℚ) ∧
    (microRecord
        (maskFilter [0, 1] ((([⟨"a b c", "t"⟩, ⟨"a b c d e f g h i", "t"⟩] :
          List Example)).map short_text))
        (maskFilter [0, 1] ((([⟨"a b c", "t"⟩, ⟨"a b c d e f g h i", "t"⟩] :
          List Example)).map short_text))).«recall» =
      (agreeCount
          (maskFilter [0, 1] ((([⟨"a b c", "t"⟩, ⟨"a b c d e f g h i", "t"⟩] :
            List Example)).map short_text))
          (maskFilter [0, 1] ((([⟨"a b c", "t"⟩, ⟨"a b c d e f g h i", "t"⟩] :
            List Example)).map short_text)) : ℚ) /
        ((([⟨"a b c", "t"⟩, ⟨"a b c d e f g h i", "t"⟩] :
          List Example).map short_text).count true : ℚ) ∧
    (microRecord
        (maskFilter [0, 1] ((([⟨"a b c", "t"⟩, ⟨"a b c d e f g h i", "t"⟩] :
          List Example)).map short_text))
        (maskFilter [0, 1] ((([⟨"a b c", "t"⟩, ⟨"a b c d e f g h i", "t"⟩] :
          List Example)).map short_text))).f1 =
      (agreeCount
          (maskFilter [0, 1] ((([⟨"a b c", "t"⟩, ⟨"a b c d e f g h i", "t"⟩] :
            List Example)).map short_text))
          (maskFilter [0, 1] ((([⟨"a b c", "t"⟩, ⟨"a b c d e f g h i", "t"⟩] :
            List Example)).map short_text)) : ℚ) /
        ((([⟨"a b c", "t"⟩, ⟨"a b c d e f g h i", "t"⟩] :
          List Example).map short_text).count true : ℚ) :=
  slice_micro_averaging slicing_functions [0, 1] [0, 1]
    [⟨"a b c", "t"⟩, ⟨"a b c d e f g h i", "t"⟩] (by decide) (by decide) "short_text"
    short_text (List.mem_cons_of_mem _ (List.mem_cons_self _ _)) (by decide)

/-- C5: every entry of the slice output has a positive sample count, and a
slicing function whose mask selects no example contributes no key to the
output (assuming the slicing-function names are distinct, as snorkel
requires). -/
theorem slice_omits_empty (sfs : List (String × (Example → Bool)))
    (y_true y_pred : List ℕ) (examples : List Example)
    (hlen : y_true.length = examples.length)
    (hnd : (sfs.map Prod.fst).Nodup) :
    (∀ e ∈ apply_slice_metrics sfs y_true y_pred examples, 0 < e.2.num_samples) ∧
    ∀ nm f, (nm, f) ∈ sfs → (examples.map f).count true = 0 →
      nm ∉ (apply_slice_metrics sfs y_true y_pred examples).map Prod.fst := by
  constructor
  · rintro ⟨nm, r⟩ he
    obtain ⟨⟨nm2, g⟩, hg, heq⟩ := List.mem_filterMap.mp he
    by_cases hc : (examples.map g).count true ≠ 0
    · rw [if_pos hc] at heq
      have hpair := Option.some_injective _ heq
      injection hpair with h1 h2
      subst h2
      show (0 : ℚ) < (microRecord _ _).num_samples
      have hm : y_true.length = (examples.map g).length := by simpa using hlen
      have hpos : 0 < (maskFilter y_true (examples.map g)).length := by
        rw [length_maskFilter _ _ hm]
        exact Nat.pos_of_ne_zero hc
      simpa [microRecord] using Nat.cast_pos.mpr hpos
    · rw [if_neg hc] at heq
      exact absurd heq (by simp)
  · intro nm f hf hzero hout
    obtain ⟨⟨nm2, r⟩, he, hfst⟩ := List.mem_map.mp hout
    obtain ⟨⟨nm3, g⟩, hg, heq⟩ := List.mem_filterMap.mp he
    by_cases hc : (examples.map g).count true ≠ 0
    · rw [if_pos hc] at heq
      have hpair := Option.some_injective _ heq
      injection hpair with h31 h32
      have hnm3 : nm3 = nm := h31.trans hfst
      rw [hnm3] at hg
      have hgf : g = f := eq_of_mem_nodup_fst hnd hg hf
      rw [hgf, hzero] at hc
      exact hc rfl
    · rw [if_neg hc] at heq
      exact absurd heq (by simp)

theorem slice_omits_empty_witness :
    (∀ e ∈ apply_slice_metrics slicing_functions [0, 1] [0, 1]
        [⟨"a b c", "t"⟩, ⟨"a b c d e f g h i", "t"⟩], 0 < e.2.num_samples) ∧
    ∀ nm f, (nm, f) ∈ slicing_functions →
      (([⟨"a b c", "t"⟩, ⟨"a b c d e f g h i", "t"⟩] : List Example).map f).count true = 0 →
      nm ∉ (apply_slice_metrics slicing_functions [0, 1] [0, 1]
        [⟨"a b c", "t"⟩, ⟨"a b c d e f g h i", "t"⟩]).map Prod.fst :=
  slice_omits_empty slicing_functions [0, 1] [0, 1]
    [⟨"a b c", "t"⟩, ⟨"a b c d e f g h i", "t"⟩] (by decide) (by decide)

/-- C1 counterexample: with `T = [1]`, `P = [1]` and the single-class mapping
`{"a": 0}`, class "a" has zero ground-truth samples, yet its returned record
has `num_samples = 1` (the support of label 1): the sklearn label set covers
only the labels present in the data, so the positional pairing hands class
"a" the metrics of label 1 instead of a zero record. -/
theorem per_class_zero_truth_cex :
    ∃ out r, get_per_class_metrics [1] [1] [("a", 0)] = some out ∧ ("a", r) ∈ out ∧
      supportCount [1] 0 = 0 ∧ r.num_samples ≠ 0 := by
  have hl : labelsOf [1] [1] = [1] := by decide
  have hout : get_per_class_metrics [1] [1] [("a", 0)] = some [("a", ⟨1, 1, 1, 1⟩)] := by
    norm_num [get_per_class_metrics, pairClasses, prfLabels, hl, precisionOf, recallOf,
      f1Of, tpCount, supportCount, predCount, List.insertionSort, List.orderedInsert,
      MetricRecord.mk.injEq]
  exact ⟨[("a", ⟨1, 1, 1, 1⟩)], ⟨1, 1, 1, 1⟩, hout, by simp, by decide, by norm_num⟩

/-- C1 (amended): when the distinct labels occurring in `T` or `P` are exactly
`0 .. K-1` (every class index occurs somewhere in the data) and the arrays
have equal length, `get_per_class_metrics` returns one record per class of
the mapping, and every class whose index has zero ground-truth samples gets
`num_samples = 0` and precision/recall/f1 all 0. -/
theorem per_class_all_classes (y_true y_pred : List ℕ) (cti : List (String × ℕ))
    (hlen : y_true.length = y_pred.length)
    (hlab : labelsOf y_true y_pred = List.range cti.length) :
    ∃ out, get_per_class_metrics y_true y_pred cti = some out ∧
      (out.map Prod.fst).Perm (cti.map Prod.fst) ∧
      ∀ i (hi : i < cti.length), supportCount y_true i = 0 →
        ((cti.get ⟨i, hi⟩).1, (⟨0, 0, 0, 0⟩ : MetricRecord)) ∈ out := by
  have hms : (prfLabels y_true y_pred).length = cti.length := by
    rw [prfLabels, List.length_map, hlab, List.length_range]
  have hkeys : (cti.map Prod.fst).length = cti.length := List.length_map _ _
  have hz : pairClasses (cti.map Prod.fst) (prfLabels y_true y_pred) =
      some ((cti.map Prod.fst).zip (prfLabels y_true y_pred)) :=
    (pairClasses_eq_some_iff _ _ _).mpr ⟨by omega, rfl⟩
  set z := (cti.map Prod.fst).zip (prfLabels y_true y_pred) with hzdef
  refine ⟨z.insertionSort F1Desc, ?_, ?_, ?_⟩
  · simp [get_per_class_metrics, hlen, hz]
  · have hperm : (z.insertionSort F1Desc).Perm z := List.perm_insertionSort _ _
    have hfst : z.map Prod.fst = cti.map Prod.fst := List.map_fst_zip _ _ (by omega)
    exact hfst ▸ hperm.map Prod.fst
  · intro i hi hsup
    have hi1 : i < (cti.map Prod.fst).length := by omega
    have hi2 : i < (prfLabels y_true y_pred).length := by omega
    have hzi : i < z.length := by
      rw [hzdef, List.length_zip]
      omega
    have hgetz : z.get ⟨i, hzi⟩ =
        ((cti.map Prod.fst).get ⟨i, hi1⟩, (prfLabels y_true y_pred).get ⟨i, hi2⟩) := by
      simp [hzdef, List.get_eq_getElem, List.getElem_zip]
    have hfst : (cti.map Prod.fst).get ⟨i, hi1⟩ = (cti.get ⟨i, hi⟩).1 := by
      simp [List.get_eq_getElem, List.getElem_map]
    have hrec : (prfLabels y_true y_pred).get ⟨i, hi2⟩ = ⟨0, 0, 0, 0⟩ := by
      obtain ⟨hp, hr, hf⟩ := zero_support_record y_true y_pred i hsup
      have hival : i < (labelsOf y_true y_pred).length := by
        rw [hlab, List.length_range]
        exact hi
      have hg : (labelsOf y_true y_pred)[i]? = some i := by
        rw [hlab]
        simp [hi]
      have hgi : (labelsOf y_true y_pred)[i] = i := by
        rw [List.getElem?_eq_getElem hival] at hg
        exact Option.some_injective _ hg
      simp only [prfLabels, List.get_eq_getElem, List.getElem_map]
      rw [hgi, hp, hr, hf, hsup]
      simp
    have hmem : ((cti.get ⟨i, hi⟩).1, (⟨0, 0, 0, 0⟩ : MetricRecord)) ∈ z := by
      rw [← hfst, ← hrec, ← hgetz]
      exact z.get_mem i hzi
    exact (List.perm_insertionSort F1Desc z).mem_iff.mpr hmem

theorem per_class_all_classes_witness :
    ∃ out, get_per_class_metrics [0, 1] [0, 1] [("a", 0), ("b", 1)] = some out ∧
      (out.map Prod.fst).Perm (([("a", 0), ("b", 1)] : List (String × ℕ)).map Prod.fst) ∧
      ∀ i (hi : i < ([("a", 0), ("b", 1)] : List (String × ℕ)).length),
        supportCount [0, 1] i = 0 →
        ((([("a", 0), ("b", 1)] : List (String × ℕ)).get ⟨i, hi⟩).1,
          (⟨0, 0, 0, 0⟩ : MetricRecord)) ∈ out :=
  per_class_all_classes [0, 1] [0, 1] [("a", 0), ("b", 1)] (by decide) (by decide)

/-- C2 counterexample: on empty (equal-length) input the overall calculator
does not fail: sklearn's weighted branch hits its zero-weight guard and
returns a zero tuple, so the code returns the complete all-zero record
instead of propagating an InvalidInput error. -/
theorem overall_empty_input_cex :
    get_overall_metrics [] [] = some ⟨0, 0, 0, 0⟩ ∧
    get_overall_metrics [] [] ≠ none := by
  constructor
  · rfl
  · simp [get_overall_metrics]

/-- C2 (amended): `get_overall_metrics` fails (raises, modelled as `none`)
exactly when the truth and prediction arrays have different lengths — that
failure propagates and no record is returned; at N = 0 with equal lengths
it does not fail but returns the complete all-zero record produced by
sklearn's zero-weight guard. -/
theorem overall_invalid_input (y_true y_pred : List ℕ) :
    (get_overall_metrics y_true y_pred = none ↔ y_true.length ≠ y_pred.length) ∧
    (y_true.length = y_pred.length → y_true.length = 0 →
      get_overall_metrics y_true y_pred = some ⟨0, 0, 0, 0⟩) := by
  constructor
  · constructor
    · intro hnone hlen
      rw [get_overall_metrics, if_pos hlen] at hnone
      by_cases h0 : y_true.length = 0
      · rw [if_pos h0] at hnone
        exact Option.some_ne_none _ hnone
      · rw [if_neg h0] at hnone
        exact Option.some_ne_none _ hnone
    · intro hne
      rw [get_overall_metrics, if_neg hne]
  · intro hlen h0
    rw [get_overall_metrics, if_pos hlen, if_pos h0]

theorem overall_invalid_input_witness :
    get_overall_metrics [0, 1] [0] = none ∧
    get_overall_metrics [] [] = some ⟨0, 0, 0, 0⟩ :=
  ⟨((overall_invalid_input [0, 1] [0]).1).mpr (by decide),
   (overall_invalid_input [] []).2 rfl rfl⟩

/-- C3: whenever `get_per_class_metrics` returns an output, its key sequence
is a permutation of the class mapping's key sequence (no additions or
omissions), it is ordered by f1 descending, and the sort is stable: any
equal-f1 group of entries appearing in insertion order (a sublist of the
positionally paired pre-sort list) appears in the same relative order in the
output. -/
theorem per_class_keys_and_order (y_true y_pred : List ℕ) (cti : List (String × ℕ))
    (out : List (String × MetricRecord))
    (h : get_per_class_metrics y_true y_pred cti = some out) :
    (out.map Prod.fst).Perm (cti.map Prod.fst) ∧
    out.Pairwise (fun a b => b.2.f1 ≤ a.2.f1) ∧
    ∀ c : List (String × MetricRecord), (∀ a ∈ c, ∀ b ∈ c, a.2.f1 = b.2.f1) →
      c.Sublist ((cti.map Prod.fst).zip (prfLabels y_true y_pred)) →
      c.Sublist out := by
  rw [get_per_class_metrics] at h
  by_cases hlen : y_true.length = y_pred.length
  · rw [if_pos hlen] at h
    obtain ⟨z, hz, hout⟩ := Option.map_eq_some'.mp h
    obtain ⟨hle, rfl⟩ := (pairClasses_eq_some_iff _ _ _).mp hz
    subst hout
    refine ⟨?_, ?_, ?_⟩
    · have hperm := (List.perm_insertionSort F1Desc
        ((cti.map Prod.fst).zip (prfLabels y_true y_pred))).map Prod.fst
      rwa [List.map_fst_zip _ _ hle] at hperm
    · have hs := List.sorted_insertionSort F1Desc
        ((cti.map Prod.fst).zip (prfLabels y_true y_pred))
      simpa [List.Sorted, F1Desc] using hs
    · intro c hcf hcs
      refine List.sublist_insertionSort ?_ hcs
      exact List.pairwise_of_forall_mem_list fun a ha b hb =>
        le_of_eq (hcf b hb a ha)
  · rw [if_neg hlen] at h
    exact absurd h (by simp)

theorem per_class_keys_and_order_witness :
    (([("b", (⟨2/3, 1, 4/5, 2⟩ : MetricRecord)),
        ("a", ⟨1, 1/2, 2/3, 2⟩)].map Prod.fst).Perm
      (([("a", 0), ("b", 1)] : List (String × ℕ)).map Prod.fst)) ∧
    ([("b", (⟨2/3, 1, 4/5, 2⟩ : MetricRecord)), ("a", ⟨1, 1/2, 2/3, 2⟩)]).Pairwise
      (fun a b => b.2.f1 ≤ a.2.f1) ∧
    ∀ c : List (String × MetricRecord), (∀ a ∈ c, ∀ b ∈ c, a.2.f1 = b.2.f1) →
      c.Sublist ((([("a", 0), ("b", 1)] : List (String × ℕ)).map Prod.fst).zip
        (prfLabels [0, 0, 1, 1] [0, 1, 1, 1])) →
      c.Sublist [("b", ⟨2/3, 1, 4/5, 2⟩), ("a", ⟨1, 1/2, 2/3, 2⟩)] :=
  per_class_keys_and_order [0, 0, 1, 1] [0, 1, 1, 1] [("a", 0), ("b", 1)]
    [("b", ⟨2/3, 1, 4/5, 2⟩), ("a", ⟨1, 1/2, 2/3, 2⟩)]
    (per_class_concrete_eval [("a", 0), ("b", 1)] rfl)

/-- C6: on `T = [0,0,1,1]`, `P = [0,1,1,1]`, classes `a ↦ 0`, `b ↦ 1`:
per-class metrics are `a`: precision 1, recall 1/2, f1 2/3 and `b`:
precision 2/3, recall 1, f1 4/5, output ordered `["b", "a"]`; the overall
record has `num_samples = 4` and fields equal to the support-weighted
averages of the per-class metrics. -/
theorem scenario_concrete_metrics :
    get_per_class_metrics [0, 0, 1, 1] [0, 1, 1, 1] [("a", 0), ("b", 1)] =
      some [("b", ⟨2/3, 1, 4/5, 2⟩), ("a", ⟨1, 1/2, 2/3, 2⟩)] ∧
    get_overall_metrics [0, 0, 1, 1] [0, 1, 1, 1] = some ⟨5/6, 3/4, 11/15, 4⟩ ∧
    weightedAvg [0, 0, 1, 1] [0, 1, 1, 1] (precisionOf [0, 0, 1, 1] [0, 1, 1, 1]) =
      (2 * precisionOf [0, 0, 1, 1] [0, 1, 1, 1] 0 +
        2 * precisionOf [0, 0, 1, 1] [0, 1, 1, 1] 1) / 4 ∧
    weightedAvg [0, 0, 1, 1] [0, 1, 1, 1] (recallOf [0, 0, 1, 1] [0, 1, 1, 1]) =
      (2 * recallOf [0, 0, 1, 1] [0, 1, 1, 1] 0 +
        2 * recallOf [0, 0, 1, 1] [0, 1, 1, 1] 1) / 4 ∧
    weightedAvg [0, 0, 1, 1] [0, 1, 1, 1] (f1Of [0, 0, 1, 1] [0, 1, 1, 1]) =
      (2 * f1Of [0, 0, 1, 1] [0, 1, 1, 1] 0 +
        2 * f1Of [0, 0, 1, 1] [0, 1, 1, 1] 1) / 4 := by
  have h1 : labelsOf [0, 0, 1, 1] [0, 1, 1, 1] = [0, 1] := by decide
  have hs0 : supportCount [0, 0, 1, 1] 0 = 2 := by decide
  have hs1 : supportCount [0, 0, 1, 1] 1 = 2 := by decide
  refine ⟨per_class_concrete_eval [("a", 0), ("b", 1)] rfl, overall_concrete_eval,
    ?_, ?_, ?_⟩ <;>
    · rw [weightedAvg, h1]
      norm_num [hs0, hs1]

/-- C7: `nlp_llm` holds iff the tag contains "natural-language-processing"
and the lowercased text contains one of the terms transformer/llm/bert;
in particular it accepts tag "natural-language-processing" with text
"A new BERT model". -/
theorem nlp_llm_spec :
    (∀ x : Example, nlp_llm x = true ↔
      ("natural-language-processing".data <:+: x.tag.data ∧
        ∃ s ∈ (["transformer", "llm", "bert"] : List String),
          s.data <:+: lowerChars x.text)) ∧
    nlp_llm ⟨"A new BERT model", "natural-language-processing"⟩ = true := by
  constructor
  · intro x
    have h1 : lowerChars "transformer" = "transformer".data := by decide
    have h2 : lowerChars "llm" = "llm".data := by decide
    have h3 : lowerChars "bert" = "bert".data := by decide
    simp [nlp_llm, strIn, h1, h2, h3]
  · decide

/-- C8: `short_text` holds iff the whitespace-split text has fewer than 8
tokens; on the two-example dataset with texts "a b c" (3 tokens) and
"a b c d e f g h i" (9 tokens) the mask is `[true, false]` and the
resulting slice entry has `num_samples = 1`. -/
theorem short_text_spec :
    (∀ x : Example, short_text x = true ↔ (pySplit x.text).length < 8) ∧
    ([⟨"a b c", "t"⟩, ⟨"a b c d e f g h i", "t"⟩] : List Example).map short_text =
      [true, false] ∧
    ∃ r, (get_slice_metrics [0, 1] [0, 1]
        [⟨"a b c", "t"⟩, ⟨"a b c d e f g h i", "t"⟩]).lookup "short_text" = some r ∧
      r.num_samples = 1 := by
  refine ⟨fun x => by simp [short_text], by decide, ⟨⟨1, 1, 1, 1⟩, ?_, rfl⟩⟩
  have hm1 : ([⟨"a b c", "t"⟩, ⟨"a b c d e f g h i", "t"⟩] : List Example).map nlp_llm =
      [false, false] := by decide
  have hm2 : ([⟨"a b c", "t"⟩, ⟨"a b c d e f g h i", "t"⟩] : List Example).map short_text =
      [true, false] := by decide
  have hmf1 : maskFilter [0, 1] [true, false] = [0] := by decide
  have hmr : microRecord [0] [0] = ⟨1, 1, 1, 1⟩ := by
    have hl : labelsOf [0] [0] = [0] := by decide
    norm_num [microRecord, hl, tpCount, supportCount, predCount, MetricRecord.mk.injEq]
  simp [get_slice_metrics, apply_slice_metrics, slicing_functions, hm1, hm2, hmf1, hmr,
    List.lookup]

/-- C10: `get_per_class_metrics` reads only the key sequence of
`class_to_index`, never the mapped integer values: two mappings with the
same keys give identical output, and each class name is paired with the
metric entry at its insertion position (class "a" below receives the
metrics of label 0 even though it is mapped to index 1). -/
theorem per_class_ignores_index_values :
    (∀ (y_true y_pred : List ℕ) (c c' : List (String × ℕ)),
        c.map Prod.fst = c'.map Prod.fst →
        get_per_class_metrics y_true y_pred c = get_per_class_metrics y_true y_pred c') ∧
    get_per_class_metrics [0, 0, 1, 1] [0, 1, 1, 1] [("a", 5), ("b", 99)] =
      get_per_class_metrics [0, 0, 1, 1] [0, 1, 1, 1] [("a", 0), ("b", 1)] ∧
    ∃ out, get_per_class_metrics [0, 0, 1, 1] [0, 1, 1, 1] [("a", 1), ("b", 0)] =
        some out ∧ out.lookup "a" = some ⟨1, 1/2, 2/3, 2⟩ := by
  refine ⟨fun yt yp c c' h => by simp only [get_per_class_metrics, h], ?_, ?_⟩
  · rw [per_class_concrete_eval [("a", 5), ("b", 99)] rfl,
      per_class_concrete_eval [("a", 0), ("b", 1)] rfl]
  · exact ⟨[("b", ⟨2/3, 1, 4/5, 2⟩), ("a", ⟨1, 1/2, 2/3, 2⟩)],
      per_class_concrete_eval [("a", 1), ("b", 0)] rfl, by simp [List.lookup]⟩

theorem per_class_ignores_index_values_witness :
    get_per_class_metrics [0] [0] [("x", 3)] = get_per_class_metrics [0] [0] [("x", 7)] :=
  per_class_ignores_index_values.1 [0] [0] [("x", 3)] [("x", 7)] (by decide)

end MLOps
